import Mathlib

/-!
Shallow embedding of the search_engine repository (src/config.py,
src/core/indexer.py, src/core/searcher.py) for checking the
natural-language specification against the code.

Conventions used throughout:
* Python exceptions are modelled with `Except Unit` (the payload of the
  exception is irrelevant to control flow, only whether one was raised).
* External library calls (Whoosh searcher, pdfplumber pages, Natasha,
  ru_synonyms, WordNet) are modelled as explicit inputs: a record of
  functions that may themselves raise (`Except Unit`).
* `datetime` values are microseconds since the Unix epoch (Python's
  `datetime` has microsecond resolution; `datetime.max.time()` is
  23:59:59.999999).  `date` values are days since 1970-01-01.
* Python `float` arithmetic (used only in the progress computation
  `int(processed / total_files * 100)`) is modelled exactly as IEEE-754
  binary64 round-to-nearest-ties-to-even over ℚ, see `fl` below.
-/

/-! ### src/config.py : class Config -/

namespace Config

def SUPPORTED_EXTENSIONS : List String := [".pdf", ".docx", ".txt"]

def MAX_CACHE_SIZE : Nat := 1000

def MAX_SYNONYMS : Nat := 5

/-- Maximum number of characters extracted from one PDF page. -/
def PDF_TEXT_LIMIT : Nat := 5000

/-- Maximum number of PDF pages processed (`pdf.pages[:PDF_MAX_PAGES]`). -/
def PDF_MAX_PAGES : Nat := 1000

/-- Minimum PDF file size in bytes (1 KiB). -/
def PDF_MIN_SIZE : Nat := 1024

def MAX_TEXT_LENGTH : Nat := 10000000

def FILE_SEARCH_LIMIT : Nat := 50

end Config

/-! ### Python string helpers used by the code under scrutiny -/

/-- Python `str.lower()` restricted to the character ranges this program
compares (ASCII letters and the Russian Cyrillic block, including Ё).
All string comparisons in the source involve only these ranges. -/
def pyLowerChar (c : Char) : Char :=
  if 'A' ≤ c ∧ c ≤ 'Z' then Char.ofNat (c.toNat + 32)
  else if 0x410 ≤ c.toNat ∧ c.toNat ≤ 0x42F then Char.ofNat (c.toNat + 0x20)
  else if c.toNat = 0x401 then Char.ofNat 0x451
  else c

def pyLower (s : String) : String := String.mk (s.toList.map pyLowerChar)

/-- Python `str.strip()` (no argument): remove leading and trailing
whitespace. -/
def pyStrip (s : String) : String :=
  String.mk (((s.toList.dropWhile Char.isWhitespace).reverse.dropWhile
    Char.isWhitespace).reverse)

/-- Python `" ".join(parts)`. -/
def joinSpace : List String → String
  | [] => ""
  | [s] => s
  | s :: rest => s ++ " " ++ joinSpace rest

/-! ### src/core/searcher.py : detect_language -/

/-- Character class of the regex `[а-яёА-ЯЁ-]` in `detect_language`. -/
def isRuChar (c : Char) : Bool :=
  (0x430 ≤ c.toNat && c.toNat ≤ 0x44F) || c.toNat = 0x451 ||
  (0x410 ≤ c.toNat && c.toNat ≤ 0x42F) || c.toNat = 0x401 || c = '-'

/-- Character class of the regex `[a-zA-Z-]` in `detect_language`. -/
def isEnChar (c : Char) : Bool :=
  ('a' ≤ c && c ≤ 'z') || ('A' ≤ c && c ≤ 'Z') || c = '-'

/-- Models `detect_language` (searcher.py lines 46-54): `re.fullmatch` of a
character class succeeds iff the word is non-empty and every character
belongs to the class. -/
def detect_language (word : String) : String :=
  if !word.toList.isEmpty && word.toList.all isRuChar then "ru"
  else if !word.toList.isEmpty && word.toList.all isEnChar then "en"
  else "unknown"

/-! ### src/core/searcher.py : get_synonyms

The underlying lexical resources (Natasha's morphology, the
`ru_synonyms` graph, WordNet) are external libraries; they appear as a
record of functions, each of which may raise.  `get_synonyms` itself
contains **no** try/except, so every lookup is a plain call whose
exception propagates. -/

structure LexEnv where
  /-- Models `lemmatize_ru word` (Natasha pipeline). -/
  lemmatize : String → Except Unit String
  /-- Models `sg.is_in_dictionary lemma`. -/
  isInDictionary : String → Except Unit Bool
  /-- Models `sg.get_list lemma` (already converted by `list(...)`). -/
  getList : String → Except Unit (List String)
  /-- Models `wn.synsets word`, as the list of lemma-name lists per synset. -/
  wnSynsets : String → Except Unit (List (List String))

/-- Models `lemma.name().replace('_', ' ')`. -/
def replaceUnderscores (s : String) : String :=
  String.mk (s.toList.map (fun c => if c = '_' then ' ' else c))

/-- Accumulate into a Python `set` and then `list(...)`: collect while
dropping duplicates (insertion order kept; the concrete order of a
CPython set is irrelevant to every claim considered here). -/
def dedupAppend (acc : List String) (s : String) : List String :=
  if acc.contains s then acc else acc ++ [s]

/-- Models `get_synonyms` (searcher.py lines 56-77), with the external lookups
supplied by `env`.  Note there is no exception handling in the source
function: any raising lookup propagates. -/
def get_synonyms (env : LexEnv) (word : String) : Except Unit (List String) :=
  let lang := detect_language word
  if lang = "ru" then
    match env.lemmatize word with
    | .error e => .error e
    | .ok lem =>
      match env.isInDictionary lem with
      | .error e => .error e
      | .ok true =>
        match env.getList lem with
        | .error e => .error e
        | .ok synonyms => .ok (if synonyms.isEmpty then [lem] else synonyms)
      | .ok false => .ok [lem]
  else if lang = "en" then
    match env.wnSynsets word with
    | .error e => .error e
    | .ok synsets =>
      let names := (synsets.flatten.map replaceUnderscores).foldl dedupAppend []
      .ok (if names.isEmpty then [word] else names)
  else .ok [word]

/-! ### src/core/searcher.py : search_index

The Whoosh searcher/parser and the NLP tokenizers are external; they are
supplied as a `QueryCtx` of possibly-raising functions.  `Hit` stands
for one already-converted result row `{path, score, last_modified}`. -/

structure Hit where
  path : String
  score : Int
  last_modified : Int
deriving DecidableEq

structure QueryCtx where
  /-- Models `parser.parse(query_str)` followed by `searcher.search(query, limit)`
  and the per-hit dict construction (searcher.py lines 121-129). -/
  directSearch : String → Except Unit (List Hit)
  /-- Models `detect_language(query_str)` + `tokenize_text(query_str, lang)`
  (external razdel / nltk tokenizers, searcher.py lines 136-137). -/
  tokenizeText : String → Except Unit (List String)
  /-- Models `get_cache_synonyms(word)` (may raise, see `get_synonyms`). -/
  getSyns : String → Except Unit (List String)
  /-- Models `searcher.search(And(synonym_queries), limit)` plus the hit dict
  construction, taking the per-word synonym term lists. -/
  searchSyn : List (List String) → Except Unit (List Hit)

/-- Models `string.punctuation` from CPython, as a character list. -/
def string_punctuation : List Char :=
  ['!', '"', '#', '$', '%', '&', '\'', '(', ')', '*', '+', ',', '-', '.',
   '/', ':', ';', '<', '=', '>', '?', '@', '[', '\\', ']', '^', '_',
   '\x60', '\x7b', '|', '\x7d', '~']

/-- Python `needle in haystack` on strings is a substring test. -/
def containsSub (needle hay : List Char) : Bool :=
  needle.isPrefixOf hay ||
    match hay with
    | [] => false
    | _ :: t => containsSub needle t

/-- The loop building `synonym_queries` (searcher.py lines 146-151): for
each word fetch synonyms (a raising call propagates to the enclosing
try), skip words with no synonyms, keep `synonyms[:MAX_SYNONYMS]`. -/
def buildSynQueries (ctx : QueryCtx) : List String → Except Unit (List (List String))
  | [] => .ok []
  | w :: ws =>
    match ctx.getSyns w with
    | .error e => .error e
    | .ok syns =>
      match buildSynQueries ctx ws with
      | .error e => .error e
      | .ok rest =>
        .ok (if syns.isEmpty then rest else syns.take Config.MAX_SYNONYMS :: rest)

/-- The body of the second `try` block of `search_index` (searcher.py
lines 134-157): tokenize, filter stop words and punctuation
(`w not in string.punctuation` is a *substring* test in Python), lower,
build per-word synonym clauses, and run the combined query; with no
clauses return `[]` without querying. -/
def synonym_phase (ctx : QueryCtx) (stopWords : List String) (queryStr : String) :
    Except Unit (List Hit) :=
  match ctx.tokenizeText queryStr with
  | .error e => .error e
  | .ok tokens =>
    let words := (tokens.filter (fun w =>
        !stopWords.contains w && !containsSub w.toList string_punctuation)).map pyLower
    match buildSynQueries ctx words with
    | .error e => .error e
    | .ok synQueries =>
      if synQueries.isEmpty then .ok [] else ctx.searchSyn synQueries

/-- Models `search_index` (searcher.py lines 114-163).  The first `try` performs
the direct search; on exception the function logs and **returns `[]`**
(line 131), so the synonym phase is reached only when the direct search
succeeded with an empty result. -/
def search_index (ctx : QueryCtx) (stopWords : List String) (queryStr : String) :
    List Hit :=
  match ctx.directSearch queryStr with
  | .error _ => []
  | .ok hits =>
    if !hits.isEmpty then hits
    else
      match synonym_phase ctx stopWords queryStr with
      | .error _ => []
      | .ok hits2 => hits2

/-! ### src/core/searcher.py : search_time_range

`date` values are days since 1970-01-01 (so `date(1970,1,1)` is day 0);
`datetime` values are microseconds since that epoch. -/

def usPerDay : Int := 86400000000

/-- Models `datetime.combine(d, datetime.min.time())` : 00:00:00.000000. -/
def startOfDay (d : Int) : Int := d * usPerDay

/-- Models `datetime.combine(d, datetime.max.time())` : 23:59:59.999999. -/
def endOfDay (d : Int) : Int := d * usPerDay + 86399999999

/-- A committed document as seen by the query paths: stored `path`,
stored `filename`, ranking score and stored `last_modified`. -/
structure Doc where
  path : String
  filename : String
  score : Int
  last_modified : Int
deriving DecidableEq

/-- Models `searcher.search(DateRange("last_modified", lo, hi), limit=limit)`:
Whoosh's `DateRange(field, start, end)` defaults to
`startexcl=False, endexcl=False`, i.e. both bounds inclusive. -/
def dateRangeSearch (docs : List Doc) (lo hi : Int) (limit : Nat) : List Doc :=
  (docs.filter (fun d => lo ≤ d.last_modified && d.last_modified ≤ hi)).take limit

/-- Gregorian leap year, as implemented by Python's `datetime`. -/
def isLeap (y : Nat) : Bool := y % 4 = 0 && (y % 100 ≠ 0 || y % 400 = 0)

def daysInMonth (y m : Nat) : Nat :=
  if m = 2 then (if isLeap y then 29 else 28)
  else if m = 4 ∨ m = 6 ∨ m = 9 ∨ m = 11 then 30
  else 31

/-- Days from 1970-01-01 to the civil date y-m-d (proleptic Gregorian,
valid for y ≥ 1 which is `datetime.MINYEAR`); the standard
days-from-civil computation. -/
def daysFromCivil (y m d : Nat) : Int :=
  let y' := if m ≤ 2 then y - 1 else y
  let era := y' / 400
  let yoe := y' % 400
  let mp := if m > 2 then m - 3 else m + 9
  let doy := (153 * mp + 2) / 5 + (d - 1)
  let doe := yoe * 365 + yoe / 4 - yoe / 100 + doy
  (era * 146097 + doe : Int) - 719468

def digitsToNat (l : List Char) : Nat :=
  l.foldl (fun a c => a * 10 + (c.toNat - 48)) 0

/-- Models `datetime.strptime(s, "%Y-%m-%d").date()` : CPython's `_strptime`
compiles `%Y` to four digits, `%m` to `1[0-2]|0[1-9]|[1-9]` and `%d` to
`3[01]|[12]\d|0[1-9]|[1-9]`, anchored (leftover input raises); the
`datetime` constructor then validates the day against the month length
and `MINYEAR = 1`.  Returns the date as days since the epoch. -/
def splitDash : List Char → List (List Char)
  | [] => [[]]
  | c :: rest =>
    let r := splitDash rest
    if c = '-' then [] :: r
    else
      match r with
      | g :: gs => (c :: g) :: gs
      | [] => [[c]]

def strptimeYMD (s : String) : Option Int :=
  match splitDash s.toList with
  | [yl, ml, dl] =>
    if yl.length = 4 && yl.all Char.isDigit &&
       (ml.length = 1 || ml.length = 2) && ml.all Char.isDigit &&
       (dl.length = 1 || dl.length = 2) && dl.all Char.isDigit then
      let y := digitsToNat yl
      let m := digitsToNat ml
      let d := digitsToNat dl
      if 1 ≤ y && 1 ≤ m && m ≤ 12 && 1 ≤ d && d ≤ daysInMonth y m then
        some (daysFromCivil y m d)
      else none
    else none
  | _ => none

/-- One bound of `search_time_range` (searcher.py lines 177-187): a falsy
(absent or empty) string leaves the bound unset; otherwise the
case-insensitive relative keywords `'сегодня'` / `'вчера'` resolve
against `date.today()`, and anything else goes to `strptime` whose
`ValueError` is modelled as `.error`. -/
def parse_date_bound (s : Option String) (today : Int) : Except Unit (Option Int) :=
  match s with
  | none => .ok none
  | some str =>
    if str.toList.isEmpty then .ok none
    else if pyLower str = "сегодня" then .ok (some today)
    else if pyLower str = "вчера" then .ok (some (today - 1))
    else
      match strptimeYMD str with
      | some d => .ok (some d)
      | none => .error ()

/-- Models `search_time_range` (searcher.py lines 165-226).  The index searcher
is modelled by the committed document list `docs`; `today` is
`date.today()` as a day number. -/
def search_time_range (docs : List Doc) (startStr endStr : Option String)
    (limit : Nat) (today : Int) : List Doc :=
  match parse_date_bound startStr today with
  | .error _ => []
  | .ok startDate =>
    match parse_date_bound endStr today with
    | .error _ => []
    | .ok endDate =>
      match startDate, endDate with
      | some s, some e => dateRangeSearch docs (startOfDay s) (endOfDay e) limit
      | some s, none => dateRangeSearch docs (startOfDay s) (endOfDay today) limit
      | none, some e => dateRangeSearch docs (startOfDay 0) (endOfDay e) limit
      | none, none => []

/-! ### src/core/indexer.py : extract_pdf_text

The pdfplumber document is external input: the file's byte size, and
either an opening failure (any exception in the outer `try` returns
`None`) or the list of pages, each of which either raises in
`page.extract_text(...)` or returns `None` / a string. -/

inductive PageRead where
  /-- Models `page.extract_text` raised; the page is skipped (`continue`). -/
  | fail : PageRead
  /-- Models `page.extract_text` returned `None` or a string. -/
  | text : Option String → PageRead
deriving DecidableEq

structure PdfFile where
  /-- Models `file_path.stat().st_size`. -/
  size : Nat
  /-- Opening via `pdfplumber.open` : exception or the page list. -/
  pages : Except Unit (List PageRead)

/-- What one page contributes to `full_text`: a failing page or a falsy
text (`None` or `""`) contributes nothing; otherwise
`text[:PDF_TEXT_LIMIT]` is appended. -/
def pageContribution (p : PageRead) : Option String :=
  match p with
  | .fail => none
  | .text none => none
  | .text (some s) => if s.toList.isEmpty then none else some (String.mk (s.toList.take Config.PDF_TEXT_LIMIT))

/-- Models `FileIndexer.extract_pdf_text` (indexer.py lines 20-50). -/
def extract_pdf_text (f : PdfFile) : Option String :=
  if f.size < Config.PDF_MIN_SIZE then none
  else
    match f.pages with
    | .error _ => none
    | .ok pages =>
      let fullText := (pages.take Config.PDF_MAX_PAGES).filterMap pageContribution
      if fullText.isEmpty then none else some (joinSpace fullText)

/-! ### Python float arithmetic for `int(processed / total_files * 100)`

`processed / total_files` is CPython true division producing an IEEE-754
binary64, and `* 100` is a binary64 multiplication; both are correctly
rounded to nearest, ties to even.  All values arising here lie well
inside the normal range, so a binary64 is a rational `m * 2^(e-52)` with
`2^52 ≤ |m| < 2^53`, and correct rounding of a positive real `q` picks
the scaled significand nearest to `q * 2^(52 - ⌊log₂ q⌋)`.  `Int.log 2 q`
is exactly `⌊log₂ q⌋` for `q > 0`. -/

/-- Round a rational to the nearest integer, ties to even. -/
def roundTE (q : ℚ) : ℤ :=
  if q - ⌊q⌋ < 1/2 then ⌊q⌋
  else if (1:ℚ)/2 < q - ⌊q⌋ then ⌊q⌋ + 1
  else if ⌊q⌋ % 2 = 0 then ⌊q⌋ else ⌊q⌋ + 1

/-- Round a positive rational to the nearest IEEE-754 binary64 value
(normal range; nonpositive inputs do not occur and map to 0). -/
def fl (q : ℚ) : ℚ :=
  if q ≤ 0 then 0
  else
    let e := Int.log 2 q
    (roundTE (q * 2 ^ (52 - e)) : ℚ) * 2 ^ (e - 52)

/-- Models `int(processed / total_files * 100)` for positive ints: float
division, float multiplication by 100, truncation toward zero (= floor
for the nonnegative values arising here). -/
def pyProgress (total processed : Nat) : ℤ :=
  ⌊fl (fl ((processed : ℚ) / (total : ℚ)) * 100)⌋

/-! ### src/core/indexer.py : index_files

A file reaching the worker pool is modelled by its metadata and the
outcome of `process_file`'s body: `extract` is the combined result of
`FileIndexer._extract_text(file_path)` and the `file_path.stat()` call —
an exception anywhere in the body makes `process_file` return `None`
(counted as failed), otherwise the extracted content (`None` for a PDF
with no text or an unsupported extension, a string otherwise). -/

structure FileEntry where
  path : String
  filename : String
  mtime : Int
  /-- Outcome of the `try` body of `process_file`. -/
  extract : Except Unit (Option String)

/-- The document record built by `process_file`, with the content kept
for inspection of what is committed. -/
structure PendingDoc where
  path : String
  filename : String
  content : Option String
  last_modified : Int
deriving DecidableEq

/-- Models `process_file` (indexer.py lines 126-139): returns the document dict,
or `None` if the body raised. -/
def process_file (f : FileEntry) : Option PendingDoc :=
  match f.extract with
  | .error _ => none
  | .ok content => some ⟨f.path, f.filename, content, f.mtime⟩

/-- The Whoosh index contents: documents keyed by their unique `path`. -/
abbrev IndexState := List PendingDoc

/-- Models `writer.update_document(**doc)`: delete any document with the same
unique `path`, then add the new one. -/
def update_document (ix : IndexState) (d : PendingDoc) : IndexState :=
  (List.filter (fun x => x.path ≠ d.path) ix) ++ [d]

/-- Models `FileIndexer.create_or_open_index` (indexer.py lines 74-83): despite
its name it unconditionally calls `whoosh.index.create_in`, which
initializes a **fresh empty index** in the directory, discarding any
existing one. -/
def create_or_open_index (_prior : IndexState) : IndexState := []

/-- Models `FileIndexer.get_index` (indexer.py lines 85-102): opens the existing
index when `index.exists_in` holds, otherwise creates an empty one.
(Used by the GUI at startup, *not* by `index_files`.) -/
def get_index (prior : Option IndexState) : IndexState :=
  match prior with
  | some ix => ix
  | none => []

/-- The `as_completed` collection loop of `index_files` (indexer.py lines
144-157) followed by the write pass: `files` is the worklist in
completion order, `processed`/`success`/`failed` the counters, `docs`
the accumulated documents, `reports` the values passed to the progress
callback (when one is supplied).  The callback value is computed and the
counter advanced for every completed future, successful or not. -/
def indexLoop (total : Nat) (files : List FileEntry) (processed success failed : Nat)
    (docs : List PendingDoc) (reports : List Int) :
    Nat × Nat × List PendingDoc × List Int :=
  match files with
  | [] => (success, failed, docs, reports)
  | f :: rest =>
    let processed' := processed + 1
    let rep := pyProgress total processed'
    match process_file f with
    | some d =>
      indexLoop total rest processed' (success + 1) failed (docs ++ [d]) (reports ++ [rep])
    | none =>
      indexLoop total rest processed' success (failed + 1) docs (reports ++ [rep])

/-- Result of one `index_files` run: the returned `(success, failed)`
pair, the committed index contents, and the progress values reported. -/
structure IndexRun where
  success : Nat
  failed : Nat
  committed : IndexState
  reports : List Int

/-- Models `FileIndexer.index_files` (indexer.py lines 104-172) over the
eligible files (already filtered by `_get_files_to_index`), given the
index contents `prior` left by earlier runs in `Config.INDEX_DIR`.
With no eligible files it returns `(0, 0)` without touching the index;
otherwise it opens the index via `create_or_open_index`, runs the
extraction loop, and commits every collected document with
`writer.update_document`. -/
def index_files (prior : IndexState) (files : List FileEntry) : IndexRun :=
  if files.isEmpty then ⟨0, 0, prior, []⟩
  else
    let ix := create_or_open_index prior
    let r := indexLoop files.length files 0 0 0 [] []
    ⟨r.1, r.2.1, r.2.2.1.foldl update_document ix, r.2.2.2⟩

/-! ### src/core/searcher.py : search_by_filename

The query is analyzed with Whoosh's `StandardAnalyzer()`:
`RegexTokenizer(r"\w+(\.?\w+)*")`, a lowercase filter, and a stop filter
with the default stop list and `minsize=2`.  A `\w` character is a
Unicode letter, digit or underscore; we cover the ranges occurring in
this program (ASCII + Cyrillic).  A `.` stays inside a token exactly
when both neighbours are word characters (equivalent to the regex). -/

def wordChar (c : Char) : Bool :=
  c.isAlphanum || c = '_' ||
  (0x410 ≤ c.toNat && c.toNat ≤ 0x44F) || c.toNat = 0x401 || c.toNat = 0x451

def isTokChar (prev : Option Char) (c : Char) (next : Option Char) : Bool :=
  wordChar c ||
    (c = '.' && (match prev with | some p => wordChar p | none => false)
             && (match next with | some n => wordChar n | none => false))

/-- Mark each character with whether it belongs to a token, given its
neighbours. -/
def markTokChars (prev : Option Char) : List Char → List (Char × Bool)
  | [] => []
  | [c] => [(c, isTokChar prev c none)]
  | c :: d :: rest => (c, isTokChar prev c (some d)) :: markTokChars (some c) (d :: rest)

/-- Group consecutive marked characters into tokens. -/
def groupMarked : List (Char × Bool) → List (List Char)
  | [] => []
  | (c, b) :: rest =>
    let r := groupMarked rest
    if b then
      match rest with
      | (_, true) :: _ =>
        match r with
        | g :: gs => (c :: g) :: gs
        | [] => [[c]]
      | _ => [c] :: r
    else r

/-- Whoosh's default stop word list (`whoosh.analysis.STOP_WORDS`). -/
def whooshStopWords : List String :=
  ["a", "an", "and", "are", "as", "at", "be", "by", "can", "for", "from",
   "have", "if", "in", "is", "it", "may", "not", "of", "on", "or", "tag",
   "that", "the", "this", "to", "us", "we", "when", "will", "with", "yet",
   "you", "your"]

/-- Models `[part.text for part in StandardAnalyzer()(s)]`: regex tokens,
lowercased, with stop words and tokens shorter than 2 characters
removed. -/
def analyzerTokens (s : String) : List String :=
  let toks := (groupMarked (markTokChars none s.toList)).map
    (fun l => pyLower (String.mk l))
  toks.filter (fun t => t.length ≥ 2 && !whooshStopWords.contains t)

/-- Levenshtein edit distance, as used by Whoosh's `FuzzyTerm`
automaton to bound the edits on the part of the term after the exact
prefix (`maxdist` bound). -/
def editDist : List Char → List Char → Nat
  | [], ys => ys.length
  | x :: xs, [] => (x :: xs).length
  | x :: xs, y :: ys =>
    if x = y then editDist xs ys
    else 1 + min (editDist xs (y :: ys)) (min (editDist (x :: xs) ys) (editDist xs ys))
termination_by a b => a.length + b.length

/-- The dynamically-typed stored `filename` field value handled by
`_normalize_filename` (searcher.py lines 285-301). -/
inductive StoredValue where
  /-- a `str` value -/
  | str : String → StoredValue
  /-- a `bytes` value, with its UTF-8 decoding when one exists -/
  | bytes : Option String → StoredValue
  /-- an `int` value -/
  | int : Int → StoredValue
deriving DecidableEq

/-- Models `_normalize_filename`: bytes are decoded (undecodable → `None`),
strings lowered, ints stringified then lowered. -/
def normalize_filename (v : StoredValue) : Option String :=
  match v with
  | .bytes (some s) => some (pyLower s)
  | .bytes none => none
  | .str s => some (pyLower s)
  | .int n => some (pyLower (toString n))

/-- A document as seen by the filename search: its stored fields plus
the indexed terms of the analyzed `filename` field. -/
structure FnDoc where
  path : String
  storedFilename : StoredValue
  score : Int
  last_modified : Int

/-- The indexed terms of the `filename` field (the field's analyzer is
`StandardAnalyzer`), for the value actually stored. -/
def filenameTerms (v : StoredValue) : List String :=
  match v with
  | .str s => analyzerTokens s
  | .bytes _ => []
  | .int n => analyzerTokens (toString n)

/-- One per-part clause `Or([Wildcard("filename", f"*{part}*"),
FuzzyTerm("filename", part, maxdist=2)])`: some indexed term contains
`part` as a substring, or fuzzy-matches it.  Whoosh's `FuzzyTerm`
constructor defaults to `prefixlength=1`, so its automaton requires the
matched term to share the first character with the query text exactly
and allows at most `maxdist` edits on the remainder. -/
def partMatches (d : FnDoc) (part : String) : Bool :=
  (filenameTerms d.storedFilename).any (fun t =>
    containsSub part.toList t.toList ||
      match t.toList, part.toList with
      | tc :: ts, pc :: ps => tc = pc && editDist ts ps ≤ 2
      | _, _ => false)

/-- Models `search_by_filename` (searcher.py lines 303-342).  With an empty
`query_parts` list the source reaches `queries[0]` on an empty list and
raises `IndexError`, modelled as `.error ()`. -/
def search_by_filename (docs : List FnDoc) (filename : String) :
    Except Unit (List Doc) :=
  let filenameQuery := pyStrip (pyLower filename)
  let queryParts := analyzerTokens filenameQuery
  if queryParts.isEmpty then .error ()
  else
    let results := (docs.filter (fun d => queryParts.all (partMatches d))).take
      Config.FILE_SEARCH_LIMIT
    .ok (results.filterMap (fun d =>
      match normalize_filename d.storedFilename with
      | none => none
      | some docStr =>
        if !docStr.toList.isEmpty &&
           (filenameQuery.toList.isPrefixOf docStr.toList ||
             containsSub filenameQuery.toList docStr.toList) then
          some ⟨d.path, docStr, d.score, d.last_modified⟩
        else none))

/-! ### Fixtures for the synonym resolver -/

/-- Lexical environment whose lookups all succeed and find nothing. -/
def envPlain : LexEnv :=
  ⟨fun w => .ok w, fun _ => .ok false, fun _ => .ok [], fun _ => .ok []⟩

/-- Lexical environment whose thesaurus membership test raises. -/
def envDictRaises : LexEnv :=
  ⟨fun w => .ok w, fun _ => .error (), fun _ => .ok [], fun _ => .ok []⟩

/-- C9 as stated is false: `get_synonyms` contains no exception handler,
so when the thesaurus membership lookup raises on the Russian word
`кот`, the call propagates the exception instead of degrading to
`[word]`. -/
theorem c9_counterexample :
    get_synonyms envDictRaises "кот" = .error () ∧
    get_synonyms envDictRaises "кот" ≠ .ok ["кот"] := by
  have h1 : get_synonyms envDictRaises "кот" = .error () := rfl
  exact ⟨h1, by simp [h1]⟩

/-- C9 amended: `get_synonyms` performs no exception handling of its
own; a failure in any of the underlying lexical lookups (morphological
analyzer, synonym graph, WordNet) propagates to the caller as an
exception (the enclosing search phases catch it there). -/
theorem c9_amended (env : LexEnv) (word lem : String) (e : Unit) :
    (detect_language word = "ru" → env.lemmatize word = .error e →
      get_synonyms env word = .error e) ∧
    (detect_language word = "ru" → env.lemmatize word = .ok lem →
      env.isInDictionary lem = .error e → get_synonyms env word = .error e) ∧
    (detect_language word = "ru" → env.lemmatize word = .ok lem →
      env.isInDictionary lem = .ok true → env.getList lem = .error e →
      get_synonyms env word = .error e) ∧
    (detect_language word = "en" → env.wnSynsets word = .error e →
      get_synonyms env word = .error e) := by
  refine ⟨fun hl he => ?_, fun hl he hd => ?_, fun hl he hd hg => ?_, fun hl hw => ?_⟩
  · simp [get_synonyms, hl, he]
  · simp [get_synonyms, hl, he, hd]
  · simp [get_synonyms, hl, he, hd, hg]
  · simp [get_synonyms, hl, hw]

/-- Witness for the amended C9 at a concrete input. -/
theorem c9_amended_witness : get_synonyms envDictRaises "пёс" = .error () :=
  (c9_amended envDictRaises "пёс" "пёс" ()).2.1 rfl rfl rfl

/-- C10: whenever the underlying lookups return normally, `get_synonyms`
returns a non-empty list; the Russian path falls back to the singleton
`[lemma]`, the Latin path to `[word]`, and the unknown-language path
returns exactly `[word]`. -/
theorem c10_get_synonyms_nonempty (env : LexEnv) (word lem : String)
    (ss : List (List String)) :
    (∀ r, get_synonyms env word = .ok r → r ≠ []) ∧
    (detect_language word = "unknown" → get_synonyms env word = .ok [word]) ∧
    (detect_language word = "ru" → env.lemmatize word = .ok lem →
      env.isInDictionary lem = .ok true → env.getList lem = .ok [] →
      get_synonyms env word = .ok [lem]) ∧
    (detect_language word = "ru" → env.lemmatize word = .ok lem →
      env.isInDictionary lem = .ok false → get_synonyms env word = .ok [lem]) ∧
    (detect_language word = "en" → env.wnSynsets word = .ok ss → ss.flatten = [] →
      get_synonyms env word = .ok [word]) := by
  refine ⟨fun r h => ?_, fun hu => ?_, fun hl he hd hg => ?_,
    fun hl he hd => ?_, fun hl hw hf => ?_⟩
  · by_cases h1 : detect_language word = "ru"
    · simp only [get_synonyms] at h
      simp [h1] at h
      cases he : env.lemmatize word with
      | error e => simp [he] at h
      | ok lem2 =>
        simp only [he] at h
        cases hd : env.isInDictionary lem2 with
        | error e => simp [hd] at h
        | ok b =>
          cases b with
          | false =>
            simp only [hd, Except.ok.injEq] at h
            subst h
            simp
          | true =>
            simp only [hd] at h
            cases hg : env.getList lem2 with
            | error e => simp [hg] at h
            | ok syns =>
              simp only [hg] at h
              split at h
              · simp only [Except.ok.injEq] at h
                subst h
                simp
              · rename_i hcond
                simp only [Except.ok.injEq] at h
                subst h
                simpa using hcond
    · by_cases h2 : detect_language word = "en"
      · simp only [get_synonyms] at h
        simp [h1, h2] at h
        cases hw : env.wnSynsets word with
        | error e => simp [hw] at h
        | ok synsets =>
          simp only [hw] at h
          split at h
          · simp only [Except.ok.injEq] at h
            subst h
            simp
          · rename_i hcond
            simp only [Except.ok.injEq] at h
            subst h
            simpa using hcond
      · simp only [get_synonyms] at h
        simp [h1, h2] at h
        subst h
        simp
  · have h1 : detect_language word ≠ "ru" := by rw [hu]; decide
    have h2 : detect_language word ≠ "en" := by rw [hu]; decide
    simp [get_synonyms, h1, h2]
  · simp [get_synonyms, hl, he, hd, hg]
  · simp [get_synonyms, hl, he, hd]
  · simp [get_synonyms, hl, hw, hf, dedupAppend]

/-- Witness for C10 at concrete inputs (unknown-language path). -/
theorem c10_witness :
    get_synonyms envPlain "кот3" = .ok ["кот3"] ∧ ["кот3"] ≠ ([] : List String) :=
  ⟨(c10_get_synonyms_nonempty envPlain "кот3" "" []).2.1 rfl,
   (c10_get_synonyms_nonempty envPlain "кот3" "" []).1 ["кот3"]
     ((c10_get_synonyms_nonempty envPlain "кот3" "" []).2.1 rfl)⟩

/-! ### Fixtures for the keyword-search control flow -/

def hitA : Hit := ⟨"/docs/a.txt", 1, 0⟩

/-- Query context whose direct-search phase raises, while the synonym
fallback would find `hitA`. -/
def ctxDirectRaises : QueryCtx :=
  ⟨fun _ => .error (), fun _ => .ok ["cat"], fun w => .ok [w], fun _ => .ok [hitA]⟩

/-- Query context whose direct-search phase succeeds with no hits. -/
def ctxDirectEmpty : QueryCtx :=
  ⟨fun _ => .ok [], fun _ => .ok ["cat"], fun w => .ok [w], fun _ => .ok [hitA]⟩

/-- C3 as stated is false: when the direct-search phase raises,
`search_index` returns `[]` immediately (searcher.py line 131) and the
synonym-expansion fallback is **not** executed — here the fallback
would have returned `hitA`. -/
theorem c3_counterexample :
    search_index ctxDirectRaises [] "cat" = [] ∧
    synonym_phase ctxDirectRaises [] "cat" = .ok [hitA] ∧
    ([] : List Hit) ≠ [hitA] := by
  refine ⟨rfl, rfl, by simp⟩

/-- C3 amended: an exception in the direct-search phase is caught and
makes `search_index` return the empty list at once, without attempting
the synonym fallback; the fallback runs exactly when the direct phase
succeeds with an empty result, and a non-empty direct result is
returned as is. -/
theorem c3_amended (ctx : QueryCtx) (stopWords : List String) (q : String) :
    (∀ e, ctx.directSearch q = .error e → search_index ctx stopWords q = []) ∧
    (ctx.directSearch q = .ok [] →
      search_index ctx stopWords q =
        match synonym_phase ctx stopWords q with
        | .ok hits2 => hits2
        | .error _ => []) ∧
    (∀ hits, ctx.directSearch q = .ok hits → hits ≠ [] →
      search_index ctx stopWords q = hits) := by
  refine ⟨fun e he => ?_, fun he => ?_, fun hits he hne => ?_⟩
  · simp [search_index, he]
  · simp only [search_index, he]
    simp only [List.isEmpty_nil, Bool.not_true, Bool.false_eq_true, if_false]
    cases hs : synonym_phase ctx stopWords q <;> rfl
  · simp only [search_index, he]
    have : hits.isEmpty = false := by simpa using hne
    simp [this]

/-- Witness for the amended C3 at a concrete input: with an empty direct
result the fallback result is returned. -/
theorem c3_amended_witness : search_index ctxDirectEmpty [] "cat" = [hitA] := by
  have h := (c3_amended ctxDirectEmpty [] "cat").2.1 rfl
  simpa using h

/-! ### Theorems about the date-range search -/

/-- C4 as stated is false: the relative keywords recognized by
`search_time_range` are the Russian `'сегодня'`/`'вчера'`, not
`today`/`yesterday`; the bound string `"today"` reaches `strptime`,
raises `ValueError`, and the whole query returns `[]` even when a
document modified today exists. -/
theorem c4_counterexample :
    parse_date_bound (some "today") 19000 = .error () ∧
    parse_date_bound (some "today") 19000 ≠ .ok (some 19000) ∧
    search_time_range [⟨"/p", "f", 0, startOfDay 19000⟩] (some "today") none
      10 19000 = [] := by
  have h1 : parse_date_bound (some "today") 19000 = .error () := rfl
  exact ⟨h1, by simp [h1], rfl⟩

/-- C4 amended: each bound may be absent (or empty), an ISO `YYYY-MM-DD`
date, or one of the *Russian* relative keywords `'сегодня'` / `'вчера'`
matched case-insensitively, resolving to the current date and the
current date minus one day; the English keywords `today`/`yesterday`
are not recognized and are treated as invalid dates. -/
theorem c4_amended (today d : Int) (s1 s2 s3 : String)
    (h1 : pyLower s1 = "сегодня") (h2 : pyLower s2 = "вчера")
    (h3 : strptimeYMD s3 = some d) (h3e : ¬s3.toList.isEmpty = true)
    (h3a : pyLower s3 ≠ "сегодня") (h3b : pyLower s3 ≠ "вчера") :
    parse_date_bound none today = .ok none ∧
    parse_date_bound (some "") today = .ok none ∧
    parse_date_bound (some s1) today = .ok (some today) ∧
    parse_date_bound (some s2) today = .ok (some (today - 1)) ∧
    parse_date_bound (some s3) today = .ok (some d) := by
  have hne1 : s1.toList.isEmpty = false := by
    cases hl : s1.toList with
    | nil => rw [pyLower, hl] at h1; exact absurd h1 (by decide)
    | cons c cs => rfl
  have hne2 : s2.toList.isEmpty = false := by
    cases hl : s2.toList with
    | nil => rw [pyLower, hl] at h2; exact absurd h2 (by decide)
    | cons c cs => rfl
  have hd1 : s1.data ≠ [] := List.isEmpty_eq_false.mp hne1
  have hd2 : s2.data ≠ [] := List.isEmpty_eq_false.mp hne2
  have hd3 : s3.data ≠ [] := by simpa using h3e
  refine ⟨rfl, rfl, ?_, ?_, ?_⟩
  · simp [parse_date_bound, hne1, hd1, h1]
  · have h2a : pyLower s2 ≠ "сегодня" := by rw [h2]; decide
    simp [parse_date_bound, hne2, hd2, h2, h2a]
  · simp [parse_date_bound, h3e, hd3, h3a, h3b, h3]

/-- Witness for the amended C4 at concrete inputs. -/
theorem c4_amended_witness :
    parse_date_bound none 20000 = .ok none ∧
    parse_date_bound (some "") 20000 = .ok none ∧
    parse_date_bound (some "Сегодня") 20000 = .ok (some 20000) ∧
    parse_date_bound (some "ВЧЕРА") 20000 = .ok (some 19999) ∧
    parse_date_bound (some "2024-02-29") 20000 = .ok (some 19782) :=
  c4_amended 20000 19782 "Сегодня" "ВЧЕРА" "2024-02-29" (by decide) (by decide)
    (by decide) (by decide) (by decide) (by decide)

/-- C8: with both bounds present the executed range is inclusive from
start-of-day(start) to end-of-day(end) — a document stamped exactly at
`start 00:00:00` or `end 23:59:59` is returned; with only a start the
range extends to end-of-day(today); with only an end it starts at
start-of-day of the epoch; with neither bound no query is executed and
the result is empty regardless of the index contents. -/
theorem c8_search_time_range (docs : List Doc) (doc : Doc)
    (startStr endStr : String) (sd ed today : Int) (limit : Nat)
    (hs : parse_date_bound (some startStr) today = .ok (some sd))
    (he : parse_date_bound (some endStr) today = .ok (some ed))
    (hse : sd ≤ ed) (hmem : doc ∈ docs) (hlim : docs.length ≤ limit) :
    (search_time_range docs (some startStr) (some endStr) limit today =
      dateRangeSearch docs (startOfDay sd) (endOfDay ed) limit) ∧
    ((doc.last_modified = startOfDay sd ∨
        doc.last_modified = ed * usPerDay + 86399000000) →
      doc ∈ search_time_range docs (some startStr) (some endStr) limit today) ∧
    (search_time_range docs (some startStr) none limit today =
      dateRangeSearch docs (startOfDay sd) (endOfDay today) limit) ∧
    (search_time_range docs none (some endStr) limit today =
      dateRangeSearch docs (startOfDay 0) (endOfDay ed) limit) ∧
    (search_time_range docs none none limit today = []) := by
  have hmul : sd * usPerDay ≤ ed * usPerDay :=
    mul_le_mul_of_nonneg_right hse (by norm_num [usPerDay])
  have hr1 : search_time_range docs (some startStr) (some endStr) limit today =
      dateRangeSearch docs (startOfDay sd) (endOfDay ed) limit := by
    simp [search_time_range, hs, he]
  refine ⟨hr1, fun hlm => ?_, ?_, ?_, rfl⟩
  · rw [hr1]
    unfold dateRangeSearch
    rw [List.take_of_length_le (le_trans (List.length_filter_le _ _) hlim)]
    rw [List.mem_filter]
    refine ⟨hmem, ?_⟩
    simp only [Bool.and_eq_true, decide_eq_true_eq]
    rcases hlm with h | h <;> rw [h] <;>
      constructor <;> simp only [startOfDay, endOfDay, usPerDay] at * <;> linarith
  · unfold search_time_range
    rw [hs]
    rfl
  · unfold search_time_range
    rw [he]
    rfl

def d0 : Doc := ⟨"/p/a.txt", "a.txt", 0, 0⟩

/-- Witness for C8: a document stamped 1970-01-01 00:00:00 is returned
by the range [1970-01-01, 1970-01-02]. -/
theorem c8_witness :
    d0 ∈ search_time_range [d0] (some "1970-01-01") (some "1970-01-02") 10 200 :=
  (c8_search_time_range [d0] d0 "1970-01-01" "1970-01-02" 0 1 200 10 (by rfl)
    (by rfl) (by decide) (by simp) (by decide)).2.1 (Or.inl (by decide))

/-! ### Theorems about PDF extraction -/

/-- C7: `extract_pdf_text` returns `None` for a file below the
configured minimum size (1024 bytes by default) and when no processed
page yields text; otherwise it returns the per-page texts, each
truncated to `PDF_TEXT_LIMIT` characters, joined by single spaces, and
a failing page is skipped without failing the file. -/
theorem c7_extract_pdf_text (f : PdfFile) (pages bef aft : List PageRead) (sz : Nat)
    (hp : f.pages = .ok pages) (hlen : pages.length ≤ Config.PDF_MAX_PAGES)
    (hsz : ¬f.size < Config.PDF_MIN_SIZE)
    (hlen2 : (bef ++ PageRead.fail :: aft).length ≤ Config.PDF_MAX_PAGES) :
    Config.PDF_MIN_SIZE = 1024 ∧
    (∀ g : PdfFile, g.size < Config.PDF_MIN_SIZE → extract_pdf_text g = none) ∧
    (extract_pdf_text f = none ↔ ∀ p ∈ pages, pageContribution p = none) ∧
    (∀ texts, pages.filterMap pageContribution = texts → texts ≠ [] →
      extract_pdf_text f = some (joinSpace texts)) ∧
    (extract_pdf_text ⟨sz, .ok (bef ++ PageRead.fail :: aft)⟩ =
      extract_pdf_text ⟨sz, .ok (bef ++ aft)⟩) := by
  refine ⟨rfl, fun g hg => ?_, ?_, fun texts ht hne => ?_, ?_⟩
  · simp [extract_pdf_text, hg]
  · simp only [extract_pdf_text]
    rw [if_neg hsz]
    simp only [hp]
    rw [List.take_of_length_le hlen]
    constructor
    · intro h
      by_cases hemp : (pages.filterMap pageContribution).isEmpty
      · exact List.filterMap_eq_nil_iff.mp (by simpa using hemp)
      · simp [hemp] at h
    · intro h
      have h0 : pages.filterMap pageContribution = [] :=
        List.filterMap_eq_nil_iff.mpr h
      simp [h0]
  · simp only [extract_pdf_text]
    rw [if_neg hsz]
    simp only [hp]
    rw [List.take_of_length_le hlen, ht]
    simp [hne]
  · have hlen3 : (bef ++ aft).length ≤ Config.PDF_MAX_PAGES := by
      simp only [List.length_append, List.length_cons] at hlen2 ⊢
      omega
    by_cases hs2 : sz < Config.PDF_MIN_SIZE
    · simp [extract_pdf_text, hs2]
    · simp only [extract_pdf_text]
      rw [if_neg hs2, if_neg hs2]
      rw [List.take_of_length_le hlen2, List.take_of_length_le hlen3]
      simp [List.filterMap_append, pageContribution]

def pdfW : PdfFile := ⟨2048, .ok [.text (some "hello"), .fail, .text none]⟩

/-- Witness for C7 at a concrete PDF: one page with text, one failing
page, one page without text. -/
theorem c7_witness : extract_pdf_text pdfW = some "hello" :=
  (c7_extract_pdf_text pdfW [.text (some "hello"), .fail, .text none] [] [] 2048
    rfl (by decide) (by decide) (by decide)).2.2.2.1 ["hello"] (by decide) (by decide)

/-! ### The collection loop of `index_files`, in closed form -/

theorem indexLoop_eq (total : Nat) (files : List FileEntry) :
    ∀ (processed success failed : Nat) (docs : List PendingDoc) (reports : List Int),
    indexLoop total files processed success failed docs reports =
      (success + files.countP (fun f => (process_file f).isSome),
       failed + files.countP (fun f => !(process_file f).isSome),
       docs ++ files.filterMap process_file,
       reports ++ (List.range files.length).map
         (fun k => pyProgress total (processed + k + 1))) := by
  induction files with
  | nil =>
    intro processed success failed docs reports
    simp [indexLoop]
  | cons f rest ih =>
    intro processed success failed docs reports
    have hrange : ∀ pr : Nat,
        (List.range (rest.length + 1)).map (fun k => pyProgress total (pr + k + 1)) =
          pyProgress total (pr + 1) ::
            (List.range rest.length).map (fun k => pyProgress total (pr + 1 + k + 1)) := by
      intro pr
      rw [List.range_succ_eq_map, List.map_cons, List.map_map]
      rw [Nat.add_zero]
      refine congrArg (List.cons _) ?_
      apply List.map_congr_left
      intro k _
      simp only [Function.comp_apply]
      congr 1
      omega
    cases hf : process_file f with
    | some d =>
      have h1 : indexLoop total (f :: rest) processed success failed docs reports =
          indexLoop total rest (processed + 1) (success + 1) failed (docs ++ [d])
            (reports ++ [pyProgress total (processed + 1)]) := by
        simp [indexLoop, hf]
      rw [h1, ih]
      simp only [Prod.mk.injEq]
      refine ⟨?_, ?_, ?_, ?_⟩
      · rw [List.countP_cons]
        simp [hf]
        omega
      · rw [List.countP_cons]
        simp [hf]
      · simp [List.filterMap_cons, hf]
      · rw [List.length_cons, hrange processed]
        simp
    | none =>
      have h1 : indexLoop total (f :: rest) processed success failed docs reports =
          indexLoop total rest (processed + 1) success (failed + 1) docs
            (reports ++ [pyProgress total (processed + 1)]) := by
        simp [indexLoop, hf]
      rw [h1, ih]
      simp only [Prod.mk.injEq]
      refine ⟨?_, ?_, ?_, ?_⟩
      · rw [List.countP_cons]
        simp [hf]
      · rw [List.countP_cons]
        simp [hf]
        omega
      · simp [List.filterMap_cons, hf]
      · rw [List.length_cons, hrange processed]
        simp

theorem index_files_eq (prior : IndexState) (files : List FileEntry)
    (h : files ≠ []) :
    index_files prior files =
      ⟨files.countP (fun f => (process_file f).isSome),
       files.countP (fun f => !(process_file f).isSome),
       (files.filterMap process_file).foldl update_document [],
       (List.range files.length).map (fun k => pyProgress files.length (k + 1))⟩ := by
  unfold index_files
  rw [if_neg (by simpa using h)]
  rw [indexLoop_eq]
  simp [create_or_open_index]

theorem index_files_success (prior : IndexState) (files : List FileEntry)
    (h : files ≠ []) :
    (index_files prior files).success =
      files.countP (fun f => (process_file f).isSome) := by
  rw [index_files_eq _ _ h]

theorem index_files_failed (prior : IndexState) (files : List FileEntry)
    (h : files ≠ []) :
    (index_files prior files).failed =
      files.countP (fun f => !(process_file f).isSome) := by
  rw [index_files_eq _ _ h]

theorem index_files_committed (prior : IndexState) (files : List FileEntry)
    (h : files ≠ []) :
    (index_files prior files).committed =
      (files.filterMap process_file).foldl update_document [] := by
  rw [index_files_eq _ _ h]

theorem index_files_reports (prior : IndexState) (files : List FileEntry)
    (h : files ≠ []) :
    (index_files prior files).reports =
      (List.range files.length).map (fun k => pyProgress files.length (k + 1)) := by
  rw [index_files_eq _ _ h]

/-! ### Theorems about the index lifecycle (C1) and failure counting (C2) -/

def priorDoc : PendingDoc := ⟨"/old/a.txt", "a.txt", some "alpha", 0⟩

def fileB : FileEntry := ⟨"/new/b.txt", "b.txt", 5, .ok (some "bravo")⟩

/-- C1 evaluated at the failing input: a document committed by an
earlier run is *not* preserved by a later `index_files` run over a
different directory, because `create_or_open_index` (used by
`index_files`) unconditionally calls `whoosh.index.create_in`, which
replaces any existing index with a fresh empty one — unlike `get_index`
(used only by the GUI at startup), which opens an existing index. -/
theorem c1_wipes_prior_index :
    create_or_open_index [priorDoc] = [] ∧
    get_index (some [priorDoc]) = [priorDoc] ∧
    (index_files [priorDoc] [fileB]).committed =
      [⟨"/new/b.txt", "b.txt", some "bravo", 5⟩] ∧
    priorDoc ∉ (index_files [priorDoc] [fileB]).committed := by
  have hc : (index_files [priorDoc] [fileB]).committed =
      [⟨"/new/b.txt", "b.txt", some "bravo", 5⟩] := by
    rw [index_files_committed _ _ (by simp)]
    decide
  refine ⟨rfl, rfl, hc, ?_⟩
  rw [hc]
  decide

def tOK : FileEntry := ⟨"/docs/a.txt", "a.txt", 0, .ok (some "hello")⟩

def pBad : FileEntry := ⟨"/docs/b.pdf", "b.pdf", 0, .ok none⟩

/-- C2 as stated is false: a corrupt PDF (extraction yields no text,
i.e. `extract_pdf_text` returned `None` without raising) makes
`process_file` return a document dict with `content = None`, which is
truthy, so the file is counted as **succeeded** and committed; with
K = 1 valid file the run returns `(2, 0)`, not `(1, 1)`. -/
theorem c2_counterexample :
    (index_files [] [tOK, pBad]).success = 2 ∧
    (index_files [] [tOK, pBad]).failed = 0 ∧
    (index_files [] [tOK, pBad]).success ≠ 1 ∧
    (index_files [] [tOK, pBad]).failed ≠ 1 ∧
    PendingDoc.mk "/docs/b.pdf" "b.pdf" none 0 ∈
      (index_files [] [tOK, pBad]).committed := by
  have hs : (index_files [] [tOK, pBad]).success = 2 := by
    rw [index_files_success _ _ (by simp)]
    decide
  have hf : (index_files [] [tOK, pBad]).failed = 0 := by
    rw [index_files_failed _ _ (by simp)]
    decide
  refine ⟨hs, hf, by simp [hs], by simp [hf], ?_⟩
  rw [index_files_committed _ _ (by simp)]
  decide

/-- C2 amended: only a file whose processing *raises* is counted as
failed and excluded; a PDF whose extraction returns no text raises
nothing — it is counted as succeeded and committed with null content —
so a batch of K successfully-extracting files plus one such corrupt PDF
yields `succeeded = K + 1`, `failed = 0`. -/
theorem c2_amended (prior : IndexState) (valid : List FileEntry)
    (corrupt : FileEntry)
    (hval : ∀ f ∈ valid, (process_file f).isSome = true)
    (hc : corrupt.extract = .ok none) :
    (index_files prior (valid ++ [corrupt])).success = valid.length + 1 ∧
    (index_files prior (valid ++ [corrupt])).failed = 0 ∧
    (∀ files : List FileEntry, files ≠ [] →
      (index_files prior files).success =
        files.countP (fun f => (process_file f).isSome) ∧
      (index_files prior files).failed =
        files.countP (fun f => !(process_file f).isSome)) ∧
    PendingDoc.mk corrupt.path corrupt.filename none corrupt.mtime ∈
      (index_files prior (valid ++ [corrupt])).committed := by
  have hne : valid ++ [corrupt] ≠ [] := by simp
  have hcsome : process_file corrupt =
      some ⟨corrupt.path, corrupt.filename, none, corrupt.mtime⟩ := by
    simp [process_file, hc]
  refine ⟨?_, ?_, fun files hf =>
    ⟨index_files_success _ _ hf, index_files_failed _ _ hf⟩, ?_⟩
  · rw [index_files_success _ _ hne, List.countP_append,
      List.countP_eq_length.mpr hval, List.countP_cons]
    simp [hcsome]
  · rw [index_files_failed _ _ hne, List.countP_append,
      List.countP_eq_zero.mpr (fun f hf => by simp [hval f hf]),
      List.countP_cons]
    simp [hcsome]
  · rw [index_files_committed _ _ hne, List.filterMap_append, List.foldl_append]
    have h2 : List.filterMap process_file [corrupt] =
        [⟨corrupt.path, corrupt.filename, none, corrupt.mtime⟩] := by
      simp [List.filterMap_cons, hcsome]
    rw [h2]
    simp [update_document]

/-- Witness for the amended C2 at a concrete batch. -/
theorem c2_amended_witness :
    (index_files [] [tOK, pBad]).success = 1 + 1 ∧
    (index_files [] [tOK, pBad]).failed = 0 :=
  ⟨((c2_amended [] [tOK] pBad (by decide) rfl).1),
   ((c2_amended [] [tOK] pBad (by decide) rfl).2.1)⟩

/-! ### Theorems about the filename search (C5) -/

def fnDocReport : FnDoc := ⟨"/docs/report.docx", .str "report.docx", 3, 7⟩

/-- C5 evaluated at the failing inputs: an input whose tokenization
yields no query parts — the empty string, punctuation-only input, or a
bare stop word — leaves `queries` empty, and the source then evaluates
`queries[0]`, raising `IndexError` to the caller instead of returning a
list.  A regular input shows the same model returning hits normally. -/
theorem c5_evaluation :
    search_by_filename [fnDocReport] "!!!" = .error () ∧
    search_by_filename [fnDocReport] "" = .error () ∧
    search_by_filename [fnDocReport] "the" = .error () ∧
    search_by_filename [fnDocReport] "report" =
      .ok [⟨"/docs/report.docx", "report.docx", 3, 7⟩] := by
  refine ⟨rfl, rfl, rfl, rfl⟩

/-! ### Properties of the binary64 rounding model -/

theorem roundTE_le_add_half (q : ℚ) : (roundTE q : ℚ) ≤ q + 1/2 := by
  have hf := Int.floor_le q
  unfold roundTE
  split
  · linarith
  · rename_i h1
    split
    · rename_i h2
      push_cast
      linarith
    · rename_i h2
      have h2' : q - ⌊q⌋ ≤ 1/2 := not_lt.mp h2
      split
      · linarith
      · push_cast
        linarith

theorem le_roundTE_add_half (q : ℚ) : q - 1/2 ≤ (roundTE q : ℚ) := by
  have hf := Int.lt_floor_add_one q
  unfold roundTE
  split
  · rename_i h1
    linarith
  · rename_i h1
    have h1' : 1/2 ≤ q - ⌊q⌋ := not_lt.mp h1
    split
    · push_cast
      linarith
    · split
      · linarith
      · push_cast
        linarith

theorem roundTE_mono {x y : ℚ} (h : x ≤ y) : roundTE x ≤ roundTE y := by
  by_contra hc
  push_neg at hc
  have h1 : (roundTE y : ℚ) + 1 ≤ (roundTE x : ℚ) := by
    exact_mod_cast Int.add_one_le_iff.mpr hc
  have h2 := roundTE_le_add_half x
  have h3 := le_roundTE_add_half y
  have hxy : x = y := le_antisymm h (by linarith)
  rw [hxy] at hc
  exact lt_irrefl _ hc

theorem roundTE_intCast (n : ℤ) : roundTE (n : ℚ) = n := by
  unfold roundTE
  rw [Int.floor_intCast]
  norm_num

theorem roundTE_eq_of_lt_half {q : ℚ} {n : ℤ} (h1 : (n:ℚ) ≤ q)
    (h2 : q < n + 1/2) : roundTE q = n := by
  have hf : ⌊q⌋ = n := Int.floor_eq_iff.mpr ⟨h1, by linarith⟩
  unfold roundTE
  rw [hf, if_pos (by push_cast; linarith)]

theorem two_zpow_pos (n : ℤ) : (0:ℚ) < 2 ^ n := zpow_pos (by norm_num) n

theorem two_zpow_add (m n : ℤ) : (2:ℚ) ^ (m + n) = 2 ^ m * 2 ^ n :=
  zpow_add₀ (by norm_num) m n

theorem fl_scaled_lb {q : ℚ} (hq : 0 < q) :
    (2:ℚ) ^ (52:ℤ) ≤ q * 2 ^ ((52:ℤ) - Int.log 2 q) := by
  have hlow : (2:ℚ) ^ (Int.log 2 q) ≤ q := by
    exact_mod_cast Int.zpow_log_le_self (b := 2) (by norm_num) hq
  calc (2:ℚ) ^ (52:ℤ) = 2 ^ (Int.log 2 q) * 2 ^ ((52:ℤ) - Int.log 2 q) := by
        rw [← two_zpow_add]
        congr 1
        omega
    _ ≤ q * 2 ^ ((52:ℤ) - Int.log 2 q) :=
        mul_le_mul_of_nonneg_right hlow (two_zpow_pos _).le

theorem fl_scaled_ub {q : ℚ} (hq : 0 < q) :
    q * 2 ^ ((52:ℤ) - Int.log 2 q) ≤ (2:ℚ) ^ (53:ℤ) := by
  have hup : q ≤ (2:ℚ) ^ (Int.log 2 q + 1) :=
    (Int.lt_zpow_succ_log_self (b := 2) (by norm_num) q).le
  calc q * 2 ^ ((52:ℤ) - Int.log 2 q)
      ≤ (2:ℚ) ^ (Int.log 2 q + 1) * 2 ^ ((52:ℤ) - Int.log 2 q) :=
        mul_le_mul_of_nonneg_right hup (two_zpow_pos _).le
    _ = (2:ℚ) ^ (53:ℤ) := by
        rw [← two_zpow_add]
        congr 1
        omega

theorem fl_lb {q : ℚ} (hq : 0 < q) : (2:ℚ) ^ (Int.log 2 q) ≤ fl q := by
  unfold fl
  rw [if_neg (not_le.mpr hq)]
  have h1 : ((2:ℤ) ^ (52:ℕ) : ℤ) ≤ roundTE (q * 2 ^ ((52:ℤ) - Int.log 2 q)) := by
    have h2 : roundTE (((2:ℤ) ^ (52:ℕ) : ℤ) : ℚ) ≤
        roundTE (q * 2 ^ ((52:ℤ) - Int.log 2 q)) := by
      apply roundTE_mono
      calc (((2:ℤ) ^ (52:ℕ) : ℤ) : ℚ) = (2:ℚ) ^ (52:ℤ) := by
            push_cast
            norm_num
        _ ≤ q * 2 ^ ((52:ℤ) - Int.log 2 q) := fl_scaled_lb hq
    rwa [roundTE_intCast] at h2
  calc (2:ℚ) ^ (Int.log 2 q) = 2 ^ (52:ℤ) * 2 ^ (Int.log 2 q - 52) := by
        rw [← two_zpow_add]
        congr 1
        omega
    _ ≤ (roundTE (q * 2 ^ ((52:ℤ) - Int.log 2 q)) : ℚ) * 2 ^ (Int.log 2 q - 52) := by
        apply mul_le_mul_of_nonneg_right _ (two_zpow_pos _).le
        calc (2:ℚ) ^ (52:ℤ) = (((2:ℤ) ^ (52:ℕ) : ℤ) : ℚ) := by
              push_cast
              norm_num
          _ ≤ _ := by exact_mod_cast h1

theorem fl_ub {q : ℚ} (hq : 0 < q) : fl q ≤ (2:ℚ) ^ (Int.log 2 q + 1) := by
  unfold fl
  rw [if_neg (not_le.mpr hq)]
  have h1 : roundTE (q * 2 ^ ((52:ℤ) - Int.log 2 q)) ≤ ((2:ℤ) ^ (53:ℕ) : ℤ) := by
    have h2 : roundTE (q * 2 ^ ((52:ℤ) - Int.log 2 q)) ≤
        roundTE (((2:ℤ) ^ (53:ℕ) : ℤ) : ℚ) := by
      apply roundTE_mono
      calc q * 2 ^ ((52:ℤ) - Int.log 2 q) ≤ (2:ℚ) ^ (53:ℤ) := fl_scaled_ub hq
        _ = (((2:ℤ) ^ (53:ℕ) : ℤ) : ℚ) := by
            push_cast
            norm_num
    rwa [roundTE_intCast] at h2
  calc (roundTE (q * 2 ^ ((52:ℤ) - Int.log 2 q)) : ℚ) * 2 ^ (Int.log 2 q - 52)
      ≤ (2:ℚ) ^ (53:ℤ) * 2 ^ (Int.log 2 q - 52) := by
        apply mul_le_mul_of_nonneg_right _ (two_zpow_pos _).le
        calc (roundTE (q * 2 ^ ((52:ℤ) - Int.log 2 q)) : ℚ)
            ≤ (((2:ℤ) ^ (53:ℕ) : ℤ) : ℚ) := by exact_mod_cast h1
          _ = (2:ℚ) ^ (53:ℤ) := by
              push_cast
              norm_num
    _ = (2:ℚ) ^ (Int.log 2 q + 1) := by
        rw [← two_zpow_add]
        congr 1
        omega

theorem fl_pos {q : ℚ} (hq : 0 < q) : 0 < fl q :=
  lt_of_lt_of_le (two_zpow_pos _) (fl_lb hq)

theorem fl_mono {x y : ℚ} (hx : 0 < x) (hxy : x ≤ y) : fl x ≤ fl y := by
  have hy : 0 < y := lt_of_lt_of_le hx hxy
  have hee : Int.log 2 x ≤ Int.log 2 y := Int.log_mono_right hx hxy
  rcases eq_or_lt_of_le hee with heq | hlt
  · unfold fl
    rw [if_neg (not_le.mpr hx), if_neg (not_le.mpr hy), ← heq]
    have h1 : x * 2 ^ ((52:ℤ) - Int.log 2 x) ≤ y * 2 ^ ((52:ℤ) - Int.log 2 x) :=
      mul_le_mul_of_nonneg_right hxy (two_zpow_pos _).le
    exact mul_le_mul_of_nonneg_right (by exact_mod_cast roundTE_mono h1)
      (two_zpow_pos _).le
  · calc fl x ≤ 2 ^ (Int.log 2 x + 1) := fl_ub hx
      _ ≤ 2 ^ (Int.log 2 y) := by
          apply zpow_le_zpow_right₀ (by norm_num)
          omega
      _ ≤ fl y := fl_lb hy

theorem two_zpow_neg_nat (n : ℕ) : (2:ℚ) ^ (-(n:ℤ)) = ((2:ℚ) ^ n)⁻¹ := by
  rw [zpow_neg, zpow_natCast]

theorem fl_one : fl (1:ℚ) = 1 := by
  unfold fl
  rw [if_neg (by norm_num)]
  rw [Int.log_one_right]
  show (roundTE ((1:ℚ) * 2 ^ ((52:ℤ) - 0)) : ℚ) * 2 ^ ((0:ℤ) - 52) = 1
  have h1 : (1:ℚ) * 2 ^ ((52:ℤ) - 0) = (((2:ℤ) ^ (52:ℕ) : ℤ) : ℚ) := by
    push_cast
    norm_num
  rw [h1, roundTE_intCast]
  push_cast
  show (4503599627370496:ℚ) * 2 ^ (-((52:ℕ):ℤ)) = 1
  rw [two_zpow_neg_nat]
  norm_num

theorem log_100 : Int.log 2 (100:ℚ) = 6 := by
  have h1 : (6:ℤ) ≤ Int.log 2 (100:ℚ) := by
    apply (Int.zpow_le_iff_le_log (b := 2) (by norm_num) (by norm_num)).mp
    norm_num
  have h2 : Int.log 2 (100:ℚ) < 7 := by
    apply (Int.lt_zpow_iff_log_lt (b := 2) (by norm_num) (by norm_num)).mp
    norm_num
  omega

theorem fl_100 : fl (100:ℚ) = 100 := by
  unfold fl
  rw [if_neg (by norm_num), log_100]
  show (roundTE ((100:ℚ) * 2 ^ ((52:ℤ) - 6)) : ℚ) * 2 ^ ((6:ℤ) - 52) = 100
  have h1 : (100:ℚ) * 2 ^ ((52:ℤ) - 6) = ((100 * 2 ^ (46:ℕ) : ℤ) : ℚ) := by
    push_cast
    norm_num
  rw [h1, roundTE_intCast]
  push_cast
  show (7036874417766400:ℚ) * 2 ^ (-((46:ℕ):ℤ)) = 100
  rw [two_zpow_neg_nat]
  norm_num

theorem pyProgress_mono {N p q : Nat} (hN : 0 < N) (hp : 0 < p) (hpq : p ≤ q) :
    pyProgress N p ≤ pyProgress N q := by
  unfold pyProgress
  apply Int.floor_le_floor
  have hNQ : (0:ℚ) < (N:ℚ) := by exact_mod_cast hN
  have h1 : (0:ℚ) < (p:ℚ) / (N:ℚ) := div_pos (by exact_mod_cast hp) hNQ
  have h2 : (p:ℚ) / (N:ℚ) ≤ (q:ℚ) / (N:ℚ) := by
    gcongr
  have h3 := fl_mono h1 h2
  have h4 : (0:ℚ) < fl ((p:ℚ) / (N:ℚ)) * 100 := mul_pos (fl_pos h1) (by norm_num)
  apply fl_mono h4
  exact mul_le_mul_of_nonneg_right h3 (by norm_num)

theorem pyProgress_self {N : Nat} (hN : 0 < N) : pyProgress N N = 100 := by
  unfold pyProgress
  have hNQ : ((N:ℚ)) ≠ 0 := by
    have : (0:ℚ) < (N:ℚ) := by exact_mod_cast hN
    exact this.ne'
  rw [div_self hNQ, fl_one, one_mul, fl_100]
  exact_mod_cast Int.floor_intCast 100


/-! ### The concrete value `int(29 / 100 * 100)` in binary64 arithmetic -/

theorem log_29_100 : Int.log 2 ((29:ℚ)/100) = -2 := by
  have hpos : (0:ℚ) < 29/100 := by norm_num
  have e1 : ((2:ℕ):ℚ) ^ (-2:ℤ) = 1/4 := by
    push_cast
    rw [show (-2:ℤ) = -((2:ℕ):ℤ) by norm_num, two_zpow_neg_nat]
    norm_num
  have e2 : ((2:ℕ):ℚ) ^ (-1:ℤ) = 1/2 := by
    push_cast
    rw [show (-1:ℤ) = -((1:ℕ):ℤ) by norm_num, two_zpow_neg_nat]
    norm_num
  have h1 : (-2:ℤ) ≤ Int.log 2 ((29:ℚ)/100) :=
    (Int.zpow_le_iff_le_log (by norm_num) hpos).mp (by rw [e1]; norm_num)
  have h2 : Int.log 2 ((29:ℚ)/100) < -1 :=
    (Int.lt_zpow_iff_log_lt (by norm_num) hpos).mp (by rw [e2]; norm_num)
  omega

theorem fl_29_100 : fl ((29:ℚ)/100) = 5224175567749775/18014398509481984 := by
  unfold fl
  rw [if_neg (by norm_num), log_29_100]
  show (roundTE ((29:ℚ)/100 * 2 ^ ((52:ℤ) - (-2))) : ℚ) * 2 ^ ((-2:ℤ) - 52) =
    5224175567749775/18014398509481984
  have hs : (29:ℚ)/100 * 2 ^ ((52:ℤ) - (-2)) = 522417556774977536/100 := by
    rw [show ((52:ℤ) - (-2)) = ((54:ℕ):ℤ) by norm_num, zpow_natCast]
    norm_num
  rw [hs]
  rw [roundTE_eq_of_lt_half (n := 5224175567749775) (by norm_num) (by norm_num)]
  rw [show ((-2:ℤ) - 52) = -((54:ℕ):ℤ) by norm_num, two_zpow_neg_nat]
  norm_num

theorem log_fl29_times_100 :
    Int.log 2 ((130604389193744375:ℚ)/4503599627370496) = 4 := by
  have hpos : (0:ℚ) < 130604389193744375/4503599627370496 := by norm_num
  have e1 : ((2:ℕ):ℚ) ^ (4:ℤ) = 16 := by
    push_cast
    rw [show (4:ℤ) = ((4:ℕ):ℤ) by norm_num, zpow_natCast]
    norm_num
  have e2 : ((2:ℕ):ℚ) ^ (5:ℤ) = 32 := by
    push_cast
    rw [show (5:ℤ) = ((5:ℕ):ℤ) by norm_num, zpow_natCast]
    norm_num
  have h1 : (4:ℤ) ≤ Int.log 2 ((130604389193744375:ℚ)/4503599627370496) :=
    (Int.zpow_le_iff_le_log (by norm_num) hpos).mp (by rw [e1]; norm_num)
  have h2 : Int.log 2 ((130604389193744375:ℚ)/4503599627370496) < 5 :=
    (Int.lt_zpow_iff_log_lt (by norm_num) hpos).mp (by rw [e2]; norm_num)
  omega

/-- Models `int(29 / 100 * 100)` evaluates to 28 in Python: `29/100` rounds to
the binary64 `5224175567749775 / 2^54` (just below 0.29), multiplying
by 100 rounds to `8162774324609023 / 2^48 = 28.999999999999996...`,
and truncation gives 28 — not `floor(29 * 100 / 100) = 29`. -/
theorem pyProgress_100_29 : pyProgress 100 29 = 28 := by
  unfold pyProgress
  have hcast : ((29:ℕ):ℚ) / ((100:ℕ):ℚ) = 29/100 := by norm_num
  rw [hcast, fl_29_100]
  have hx : (5224175567749775:ℚ)/18014398509481984 * 100 =
      130604389193744375/4503599627370496 := by norm_num
  rw [hx]
  unfold fl
  rw [if_neg (by norm_num), log_fl29_times_100]
  show ⌊(roundTE ((130604389193744375:ℚ)/4503599627370496 * 2 ^ ((52:ℤ) - 4)) : ℚ) *
      2 ^ ((4:ℤ) - 52)⌋ = 28
  have hs : (130604389193744375:ℚ)/4503599627370496 * 2 ^ ((52:ℤ) - 4) =
      130604389193744375/16 := by
    rw [show ((52:ℤ) - 4) = ((48:ℕ):ℤ) by norm_num, zpow_natCast]
    norm_num
  rw [hs]
  rw [roundTE_eq_of_lt_half (n := 8162774324609023) (by norm_num) (by norm_num)]
  rw [show ((4:ℤ) - 52) = -((48:ℕ):ℤ) by norm_num, two_zpow_neg_nat]
  apply Int.floor_eq_iff.mpr
  constructor
  · norm_num
  · norm_num

/-! ### Theorems about progress reporting (C6) -/

/-- C6 as stated is false: in a run over 100 files the 29th callback
receives `int(29 / 100 * 100) = 28` (binary64 arithmetic), whereas
`floor(29 / 100 * 100) = 29`. -/
theorem c6_counterexample :
    (index_files [] (List.replicate 100 tOK)).reports.get? 28 =
      some (pyProgress 100 29) ∧
    pyProgress 100 29 = 28 ∧
    ⌊(29:ℚ) / 100 * 100⌋ = 29 ∧
    (index_files [] (List.replicate 100 tOK)).reports.get? 28 ≠
      some ⌊(29:ℚ) / 100 * 100⌋ := by
  have hne : (List.replicate 100 tOK : List FileEntry) ≠ [] := by simp
  have hr := index_files_reports [] (List.replicate 100 tOK) hne
  have h1 : (index_files [] (List.replicate 100 tOK)).reports.get? 28 =
      some (pyProgress 100 29) := by
    rw [hr]
    simp only [List.length_replicate]
    rw [List.get?_map, List.get?_range (by norm_num)]
    rfl
  have h3 : ⌊(29:ℚ) / 100 * 100⌋ = 29 := by
    rw [show (29:ℚ) / 100 * 100 = ((29:ℤ):ℚ) by norm_num]
    exact Int.floor_intCast 29
  refine ⟨h1, pyProgress_100_29, h3, ?_⟩
  rw [h1, pyProgress_100_29, h3]
  decide

/-- C6 amended: the callback is invoked exactly once per completed file
with `int(processed / total * 100)` computed in IEEE-754 binary64
arithmetic (which can fall one below the exact
`floor(processed * 100 / total)`, e.g. 28 instead of 29 at
`processed = 29, total = 100`); the sequence of reported values is
monotonically non-decreasing and the final reported value is 100. -/
theorem c6_amended (prior : IndexState) (files : List FileEntry)
    (h : files ≠ []) :
    (index_files prior files).reports =
      (List.range files.length).map (fun k => pyProgress files.length (k + 1)) ∧
    (index_files prior files).reports.length = files.length ∧
    (index_files prior files).reports.Pairwise (· ≤ ·) ∧
    (index_files prior files).reports.getLast? = some 100 := by
  have hr := index_files_reports prior files h
  have hN : 0 < files.length := List.length_pos.mpr h
  refine ⟨hr, ?_, ?_, ?_⟩
  · rw [hr]
    simp
  · rw [hr]
    refine List.Pairwise.map _ (fun a b hab => ?_) (List.pairwise_lt_range _)
    exact pyProgress_mono hN (Nat.succ_pos a) (by omega)
  · rw [hr]
    obtain ⟨M, hM⟩ : ∃ M, files.length = M + 1 := ⟨files.length - 1, by omega⟩
    rw [hM, List.range_succ, List.map_append, List.map_cons, List.map_nil,
      List.getLast?_concat]
    exact congrArg some (pyProgress_self (Nat.succ_pos M))

/-- Witness for the amended C6 at a concrete one-file run. -/
theorem c6_amended_witness :
    ([tOK] : List FileEntry) ≠ [] ∧
    (index_files [] [tOK]).reports.getLast? = some 100 :=
  ⟨by simp, (c6_amended [] [tOK] (by simp)).2.2.2⟩
